import Mathlib

/-!
# Verification of the NovaCred data-cleaning pipeline

Shallow embedding of `src/data_cleaning.py` (and the row shape produced by
`src/data_loader.py`) from margarida-passos-cunha/dego-project-team9.

Modelling conventions:
* A cell value is `Val`: `vnone` is the pandas "no value" marker (NaN/None/NaT),
  `vstr` a Python string, `vnum` a number (floats modelled exactly as rationals),
  `vbool` a boolean, `vdate y m d` a `pd.Timestamp` at midnight.
* A table is a `List Row` in table order; pandas column assignments become
  per-row functional updates.
* Python code that can raise an uncaught exception is embedded in
  `Except Unit`: `parse_dob` contains an unguarded `int(...)` call, and the
  `< 0` column comparisons in `fix_invalid_values` raise `TypeError` on
  string (or Timestamp) cells, so those steps are fallible.
* `pd.to_datetime(s, format=...)` with an explicit format (default
  `exact=True`) succeeds iff the whole string decomposes along the literal
  separators into digit groups of the format's widths forming a calendar-valid
  date inside the `pd.Timestamp` range (midnight dates 1677-09-22 ..
  2262-04-11); trailing unconverted text is a failure.
* `str(pd.Timestamp(y,m,d))` is `"YYYY-MM-DD 00:00:00"`.
* Python `str.strip` is modelled on ASCII whitespace; `float(...)`/
  `pd.to_numeric` string parsing is modelled as sign + decimal digits +
  optional fraction + optional exponent (`inf`/`nan` literals and `_`
  separators are not modelled; no claim depends on them).
-/

inductive Val where
  | vnone : Val
  | vstr : String → Val
  | vnum : ℚ → Val
  | vbool : Bool → Val
  | vdate : Nat → Nat → Nat → Val
deriving DecidableEq, Repr

/-- Flat row produced by `flatten_record`, plus the annotation columns the
cleaning steps append (kept at their `vnone` default until a step writes
them; pandas adds whole columns, so a structure field with a default models
a column that may not have been created yet). -/
structure Row where
  app_id : Val := Val.vnone
  full_name : Val := Val.vnone
  email : Val := Val.vnone
  ssn : Val := Val.vnone
  ip_address : Val := Val.vnone
  gender : Val := Val.vnone
  date_of_birth : Val := Val.vnone
  zip_code : Val := Val.vnone
  annual_income : Val := Val.vnone
  credit_history_months : Val := Val.vnone
  debt_to_income : Val := Val.vnone
  savings_balance : Val := Val.vnone
  spending_total : Val := Val.vnone
  spending_categories : Val := Val.vnone
  spending_category_list : Val := Val.vnone
  loan_approved : Val := Val.vnone
  interest_rate : Val := Val.vnone
  approved_amount : Val := Val.vnone
  rejection_reason : Val := Val.vnone
  processing_timestamp : Val := Val.vnone
  loan_purpose : Val := Val.vnone
  notes : Val := Val.vnone
  gender_original : Val := Val.vnone
  date_of_birth_original : Val := Val.vnone
  email_valid : Val := Val.vnone
  completeness_score : Val := Val.vnone
  completeness_pct : Val := Val.vnone
  ssn_duplicate_flag : Val := Val.vnone
deriving DecidableEq, Repr

deriving instance DecidableEq for Except

/-! ## String helpers (Python `str` primitives) -/

/-- Python `str.strip()` whitespace (ASCII part). -/
def isPySpace (c : Char) : Bool :=
  c == ' ' || c == '\t' || c == '\n' || c == '\r' || c == '\x0b' || c == '\x0c'

def trimChars (cs : List Char) : List Char :=
  ((cs.dropWhile isPySpace).reverse.dropWhile isPySpace).reverse

/-- Python `s.split(sep)` for a one-character separator (keeps empty parts,
`"".split(sep) == [""]`). -/
def splitOnChar (sep : Char) : List Char → List (List Char)
  | [] => [[]]
  | c :: cs =>
    if c = sep then [] :: splitOnChar sep cs
    else
      match splitOnChar sep cs with
      | [] => [[c]]
      | p :: ps => (c :: p) :: ps

/-- Decimal digits of `n`, most significant first. -/
def natChars (n : Nat) : List Char :=
  if _h : n < 10 then [Nat.digitChar n]
  else natChars (n / 10) ++ [Nat.digitChar (n % 10)]
decreasing_by exact Nat.div_lt_self (by omega) (by omega)

/-- Zero-padded decimal rendering, as in `str(pd.Timestamp(...))`. -/
def padNat (k n : Nat) : List Char :=
  List.replicate (k - (natChars n).length) '0' ++ natChars n

def allDigit (cs : List Char) : Bool := cs.all Char.isDigit

def charsToNat (cs : List Char) : Nat :=
  cs.foldl (fun a c => 10 * a + (c.toNat - 48)) 0

/-- Sign prefix of a Python numeric literal. Returns (isNegative, rest). -/
def splitSign : List Char → Bool × List Char
  | '+' :: r => (false, r)
  | '-' :: r => (true, r)
  | r => (false, r)

/-- Python `int(s)` on a string: strip, optional sign, one-or-more digits
(`_` digit separators are not modelled). -/
def pyInt (cs : List Char) : Option Int :=
  let t := trimChars cs
  let p := splitSign t
  if p.2 ≠ [] ∧ allDigit p.2 then
    some (if p.1 then -(charsToNat p.2 : Int) else (charsToNat p.2 : Int))
  else none

/-- Digits-only integer (no strip), used for float exponents. -/
def pyIntPlain (cs : List Char) : Option Int :=
  let p := splitSign cs
  if p.2 ≠ [] ∧ allDigit p.2 then
    some (if p.1 then -(charsToNat p.2 : Int) else (charsToNat p.2 : Int))
  else none

/-- Unsigned decimal mantissa: `digits`, `digits.digits`, `digits.`, `.digits`.
The value `int.frac` is `(int * 10^|frac| + frac) / 10^|frac|`, built with
`mkRat` (Batteries' field operations on `ℚ` are `@[irreducible]`, so the
numeric layer is written with the kernel-reducible `mkRat`/`divInt`/`num`/
`den` primitives throughout; bridge lemmas below relate them to `+ * /`). -/
def pyMantissa (cs : List Char) : Option ℚ :=
  match splitOnChar '.' cs with
  | [a] => if a ≠ [] ∧ allDigit a then some (mkRat (charsToNat a) 1) else none
  | [a, b] =>
    if (a ≠ [] ∨ b ≠ []) ∧ allDigit a ∧ allDigit b then
      some (mkRat (charsToNat a * 10 ^ b.length + charsToNat b) (10 ^ b.length))
    else none
  | _ => none

/-- `q * 10^z` for an integer exponent `z`, in reducible form. -/
def qMulPow10 (q : ℚ) (z : Int) : ℚ :=
  if 0 ≤ z then Rat.divInt (q.num * (10 : Int) ^ z.toNat) (q.den : Int)
  else Rat.divInt q.num ((q.den : Int) * (10 : Int) ^ (-z).toNat)

/-- String-to-float parsing as used by `pd.to_numeric` (decimal values are
modelled exactly as rationals). -/
def pyFloat (cs0 : List Char) : Option ℚ :=
  let cs := trimChars cs0
  let p := splitSign cs
  let csl := p.2.map Char.toLower
  match splitOnChar 'e' csl with
  | [m] => (pyMantissa m).map fun q => if p.1 then -q else q
  | [m, ex] =>
    match pyMantissa m, pyIntPlain ex with
    | some q, some z => some (qMulPow10 (if p.1 then -q else q) z)
    | _, _ => none
  | _ => none

/-- Python `str(value)` for the cell values a column can hold. The rendering
of a non-integral float is approximated (`num/den`); no claim evaluates it.
`str` of a midnight Timestamp is `"YYYY-MM-DD 00:00:00"`. -/
def pyStr (v : Val) : String :=
  match v with
  | .vnone => "nan"
  | .vstr s => s
  | .vnum q => if q.den = 1 then toString q.num ++ ".0" else toString q
  | .vbool b => if b then "True" else "False"
  | .vdate y m d =>
    ⟨padNat 4 y ++ '-' :: (padNat 2 m ++ '-' :: (padNat 2 d ++ " 00:00:00".data))⟩

/-! ## Date parsing (`parse_dob` inside `normalize_dates`) -/

def isLeap (y : Nat) : Bool := y % 4 = 0 && (y % 100 ≠ 0 || y % 400 = 0)

def daysInMonth (y m : Nat) : Nat :=
  if m = 2 then (if isLeap y then 29 else 28)
  else if m = 4 ∨ m = 6 ∨ m = 9 ∨ m = 11 then 30
  else 31

/-- `pd.to_datetime` on three separator-delimited groups (year, month, day
parts) under a strptime format `%Y sep %m sep %d` (in whatever order the
caller assembled the parts): each group must be all digits of the strptime
width (1-4 for `%Y`, 1-2 for `%m`/`%d`), the date must be calendar-valid, and
it must fit in the `pd.Timestamp` range (`OutOfBoundsDatetime` is a
`ValueError`, so it is caught like any parse failure). -/
def mkDate (yp mp dp : List Char) : Val :=
  if allDigit yp = true ∧ allDigit mp = true ∧ allDigit dp = true ∧
      1 ≤ yp.length ∧ yp.length ≤ 4 ∧ 1 ≤ mp.length ∧ mp.length ≤ 2 ∧
      1 ≤ dp.length ∧ dp.length ≤ 2 then
    if 1 ≤ charsToNat mp ∧ charsToNat mp ≤ 12 ∧ 1 ≤ charsToNat dp ∧
        charsToNat dp ≤ daysInMonth (charsToNat yp) (charsToNat mp) ∧
        16770922 ≤ charsToNat yp * 10000 + charsToNat mp * 100 + charsToNat dp ∧
        charsToNat yp * 10000 + charsToNat mp * 100 + charsToNat dp ≤ 22620411 then
      Val.vdate (charsToNat yp) (charsToNat mp) (charsToNat dp)
    else Val.vnone
  else Val.vnone

/-- Body of `parse_dob` after the null checks and `str(val).strip()`,
operating on the stripped character list. `Except.error ()` is the uncaught
`ValueError` escaping from `int(parts[0]), int(parts[1])` (source line 98:
the only parse step not wrapped in `try`). -/
def parseDobCore (cs : List Char) : Except Unit Val :=
  if cs = [] then .ok Val.vnone
  else if '-' ∈ cs then
    .ok (match splitOnChar '-' cs with
         | [yp, mp, dp] => mkDate yp mp dp
         | _ => Val.vnone)
  else if '/' ∈ cs then
    match splitOnChar '/' cs with
    | [p0, p1, p2] =>
      if p0.length = 4 then .ok (mkDate p0 p1 p2)
      else
        match pyInt p0, pyInt p1 with
        | some first, some second =>
          if 12 < first then .ok (mkDate p2 p1 p0)
          else if 12 < second then .ok (mkDate p2 p0 p1)
          else .ok (mkDate p2 p1 p0)
        | _, _ => .error ()
    | _ => .ok Val.vnone
  else .ok Val.vnone

/-- `parse_dob` from `normalize_dates` (src/data_cleaning.py lines 70-121). -/
def parse_dob (v : Val) : Except Unit Val :=
  if v = Val.vnone ∨ v = Val.vstr "" ∨ v = Val.vstr "None" then .ok Val.vnone
  else parseDobCore (trimChars (pyStr v).data)

/-! ## Cleaning steps -/

def markerNotes (v : Val) : Bool :=
  v == Val.vstr "DUPLICATE_ENTRY_ERROR" || v == Val.vstr "RESUBMISSION"

/-- `drop_duplicates(subset=["app_id"], keep="first")`: keep a row iff its
`app_id` has not been seen earlier. -/
def dropSeen : List Row → List Val → List Row
  | [], _ => []
  | r :: rs, seen =>
    if r.app_id ∈ seen then dropSeen rs seen
    else r :: dropSeen rs (r.app_id :: seen)

/-- `remove_duplicates` (src/data_cleaning.py lines 16-35). -/
def remove_duplicates (t : List Row) : List Row :=
  dropSeen (t.filter fun r => !markerNotes r.notes) []

/-- `Series.map(gender_map)`: dictionary lookup, anything not a key (and the
`""`/`None` keys, whose dict value is `np.nan`) becomes NaN. -/
def gender_map (v : Val) : Val :=
  if v = Val.vstr "Male" ∨ v = Val.vstr "M" then Val.vstr "Male"
  else if v = Val.vstr "Female" ∨ v = Val.vstr "F" then Val.vstr "Female"
  else Val.vnone

/-- `standardize_gender` (src/data_cleaning.py lines 38-59). -/
def standardize_gender (t : List Row) : List Row :=
  t.map fun r => { r with gender_original := r.gender, gender := gender_map r.gender }

/-- `Series.apply` of a fallible per-row function: first exception aborts. -/
def mapE (f : Row → Except Unit Row) : List Row → Except Unit (List Row)
  | [] => .ok []
  | r :: rs =>
    match f r with
    | .error e => .error e
    | .ok r2 =>
      match mapE f rs with
      | .error e => .error e
      | .ok rs2 => .ok (r2 :: rs2)

/-- `normalize_dates` (src/data_cleaning.py lines 62-129). -/
def normalize_dates (t : List Row) : Except Unit (List Row) :=
  mapE (fun r =>
    (parse_dob r.date_of_birth).map fun d =>
      { r with date_of_birth_original := r.date_of_birth, date_of_birth := d }) t

/-- `pd.to_numeric(..., errors="coerce")` on one cell. Booleans are numeric
in Python; strings parse as floats; anything else coerces to NaN. -/
def toNumeric (v : Val) : Option ℚ :=
  match v with
  | .vnum q => some q
  | .vbool b => some (if b then 1 else 0)
  | .vstr s => pyFloat s.data
  | _ => none

/-- Round half to even (numpy/pandas `.round(0)` tie-breaking): with
`f = ⌊q⌋` and fractional remainder `r/den = q - f`, round down when
`r/den < 1/2`, up when `> 1/2`, and to the even neighbour on a tie
(written over `num`/`den` so that it kernel-reduces; see
`roundHalfEven_of_fract_lt` etc. for the field-level characterization). -/
def roundHalfEven (q : ℚ) : ℤ :=
  let f := q.floor
  let r := q.num - f * (q.den : ℤ)
  if 2 * r < (q.den : ℤ) then f
  else if (q.den : ℤ) < 2 * r then f + 1
  else if f % 2 = 0 then f else f + 1

/-- `fix_income_types` (src/data_cleaning.py lines 132-146). -/
def fix_income_types (t : List Row) : List Row :=
  t.map fun r =>
    { r with annual_income :=
        match toNumeric r.annual_income with
        | none => Val.vnone
        | some q => Val.vnum ((roundHalfEven q : ℤ) : ℚ) }

/-- Elementwise `value < 0` as pandas evaluates it on an object column:
NaN compares False, numbers and booleans compare numerically, a string or
Timestamp raises `TypeError` (uncaught in `fix_invalid_values`). -/
def ltZero (v : Val) : Except Unit Bool :=
  match v with
  | .vnone => .ok false
  | .vnum q => .ok (decide (q < 0))
  | .vbool _ => .ok false
  | .vstr _ => .error ()
  | .vdate _ _ _ => .error ()

/-- `fix_invalid_values` (src/data_cleaning.py lines 149-170): the two
column comparisons run in order (a `TypeError` in either aborts the step),
then negative values are replaced by NaN. -/
def fix_invalid_values (t : List Row) : Except Unit (List Row) :=
  mapE (fun r =>
    match ltZero r.credit_history_months with
    | .error e => .error e
    | .ok b1 =>
      match ltZero r.savings_balance with
      | .error e => .error e
      | .ok b2 =>
        .ok { r with
          credit_history_months := if b1 then Val.vnone else r.credit_history_months,
          savings_balance := if b2 then Val.vnone else r.savings_balance }) t

/-! ## Email validation -/

def isLocalChar (c : Char) : Bool :=
  c.isAlpha || c.isDigit || c == '.' || c == '_' || c == '%' || c == '+' || c == '-'

def isDomainChar (c : Char) : Bool :=
  c.isAlpha || c.isDigit || c == '.' || c == '-'

/-- Split at the first occurrence of `sep`, if any. -/
def splitAtFirst (sep : Char) : List Char → Option (List Char × List Char)
  | [] => none
  | c :: cs =>
    if c = sep then some ([], cs)
    else (splitAtFirst sep cs).map fun p => (c :: p.1, p.2)

/-- `\.[a-zA-Z]{2,}` anchored at the end. -/
def tldOk : List Char → Bool
  | c :: rest => c == '.' && decide (2 ≤ rest.length) && rest.all Char.isAlpha
  | [] => false

/-- `[a-zA-Z0-9.-]+\.[a-zA-Z]{2,}$`: some split point gives a nonempty
domain prefix and an alphabetic TLD (regex alternatives = existence of a
matching split). -/
def domainOk (t : List Char) : Bool :=
  (List.range t.length).any fun i =>
    decide (0 < i) && (t.take i).all isDomainChar && tldOk (t.drop i)

/-- The full email pattern against the whole string. Since `@` belongs to
neither character class, the `@` consumed by the pattern is necessarily the
first one. -/
def matchCore (cs : List Char) : Bool :=
  match splitAtFirst '@' cs with
  | none => false
  | some (l, t) => decide (l ≠ []) && l.all isLocalChar && domainOk t

/-- `re.match` of the anchored pattern: Python `$` also matches just before
a single trailing newline. -/
def emailMatch (s : String) : Bool :=
  matchCore s.data ||
    (s.data.getLast? == some '\n' && matchCore s.data.dropLast)

/-- `is_valid_email` inside `validate_emails` (src/data_cleaning.py 182-185). -/
def is_valid_email (v : Val) : Bool :=
  if v = Val.vnone ∨ v = Val.vstr "" then false
  else emailMatch (pyStr v)

/-- `validate_emails` (src/data_cleaning.py lines 173-191). -/
def validate_emails (t : List Row) : List Row :=
  t.map fun r => { r with email_valid := Val.vbool (is_valid_email r.email) }

/-! ## Completeness scoring -/

/-- The 12 core-field values of a row, in the source's order. -/
def core_fields (r : Row) : List Val :=
  [r.full_name, r.email, r.ssn, r.ip_address, r.gender, r.date_of_birth,
   r.zip_code, r.annual_income, r.credit_history_months, r.debt_to_income,
   r.savings_balance, r.loan_approved]

/-- `pd.notna(val) and val != ""`. -/
def presentVal (v : Val) : Bool := !(v == Val.vnone) && !(v == Val.vstr "")

/-- `count_complete` inside `flag_missing_fields` (the source's loop with a
running counter). -/
def count_complete (r : Row) : Nat :=
  (core_fields r).foldl (fun acc v => if presentVal v then acc + 1 else acc) 0

/-- `q * n` for an integer `n`, in reducible form. -/
def qMulInt (q : ℚ) (n : ℤ) : ℚ := Rat.divInt (q.num * n) (q.den : ℤ)

/-- `q / n` for an integer `n`, in reducible form. -/
def qDivInt (q : ℚ) (n : ℤ) : ℚ := Rat.divInt q.num ((q.den : ℤ) * n)

/-- pandas `.round(1)`: round `q * 10` half-to-even, divide by 10. -/
def round1 (q : ℚ) : ℚ := Rat.divInt (roundHalfEven (qMulInt q 10)) 10

/-- The `completeness_pct` formula: `score / 12 * 100`, rounded to one
decimal (in reducible form; `pct_formula_eq` gives the field-level form). -/
def pct_formula (k : ℕ) : ℚ := round1 (qMulInt (qDivInt (mkRat k 1) 12) 100)

/-- `flag_missing_fields` (src/data_cleaning.py lines 194-222). -/
def flag_missing_fields (t : List Row) : List Row :=
  t.map fun r =>
    { r with completeness_score := Val.vnum (mkRat (count_complete r) 1),
             completeness_pct := Val.vnum (pct_formula (count_complete r)) }

/-! ## SSN duplicate flagging -/

def ssnPresent (r : Row) : Bool := presentVal r.ssn

/-- The `ssn` values of the rows with a present, non-empty `ssn`. -/
def ssnPool (t : List Row) : List Val := (t.filter ssnPresent).map Row.ssn

/-- `dup_ssns`: the SSN values occurring more than once in the pool (as a
list; only membership is ever used, mirroring `isin`). -/
def dup_ssns (t : List Row) : List Val :=
  (ssnPool t).filter fun v => 1 < (ssnPool t).count v

/-- `flag_ssn_duplicates` (src/data_cleaning.py lines 225-241). -/
def flag_ssn_duplicates (t : List Row) : List Row :=
  t.map fun r =>
    { r with ssn_duplicate_flag := Val.vbool (decide (r.ssn ∈ dup_ssns t)) }

/-- `clean_pipeline` (src/data_cleaning.py lines 244-265): the eight steps
in the source's fixed order; an uncaught exception in the date or
invalid-value step aborts the run. -/
def clean_pipeline (t : List Row) : Except Unit (List Row) :=
  match normalize_dates (standardize_gender (remove_duplicates t)) with
  | .error e => .error e
  | .ok t3 =>
    match fix_invalid_values (fix_income_types t3) with
    | .error e => .error e
    | .ok t5 => .ok (flag_ssn_duplicates (flag_missing_fields (validate_emails t5)))

/-- Drop the `_original` audit columns (in the structure embedding: reset
them to the no-value default; both are overwritten before any step reads
them, so only their erasure is observable). -/
def stripAudit (t : List Row) : List Row :=
  t.map fun r => { r with gender_original := Val.vnone, date_of_birth_original := Val.vnone }

/-! # Claim-side (spec-worded) definitions -/

/-- The gender mapping table as the spec words it: exact, case-sensitive
lookup of the four recognized literals; everything else (empty string,
no-value, unrecognized literals) becomes the no-value marker. -/
def specGender (v : Val) : Val :=
  if v = Val.vstr "Male" then Val.vstr "Male"
  else if v = Val.vstr "M" then Val.vstr "Male"
  else if v = Val.vstr "Female" then Val.vstr "Female"
  else if v = Val.vstr "F" then Val.vstr "Female"
  else Val.vnone

/-- The claim's completeness count: number of the 12 core fields whose value
is present and not the empty string. -/
def specCount (r : Row) : Nat :=
  (core_fields r).countP fun v => decide (v ≠ Val.vnone ∧ v ≠ Val.vstr "")

/-- The language of the email pattern
`[a-zA-Z0-9._%+-]+@[a-zA-Z0-9.-]+\.[a-zA-Z]{2,}` over a whole character
list, stated declaratively as the claim words it. -/
def emailLang (cs : List Char) : Prop :=
  ∃ l d c : List Char,
    cs = l ++ '@' :: (d ++ '.' :: c) ∧
    l ≠ [] ∧ l.all isLocalChar = true ∧
    d ≠ [] ∧ d.all isDomainChar = true ∧
    2 ≤ c.length ∧ c.all Char.isAlpha = true

/-- The claim's SSN-duplicate criterion: the row's `ssn` is present and
non-empty, and occurs on more than one row among the rows whose `ssn` is
present and non-empty. -/
def specDupFlag (t : List Row) (r : Row) : Bool :=
  ssnPresent r && decide (1 < ((t.filter ssnPresent).map Row.ssn).count r.ssn)

/-- The date-parsing precedence as the spec/claim words it, over the
stripped character list: a total function (any parse failure, including a
non-integer first or second slash part, yields no-date), with the
`YYYY/MM/DD` branch taken when part 1 "has 4 digits". -/
def specParseCore (cs : List Char) : Val :=
  if cs = [] then Val.vnone
  else if '-' ∈ cs then
    match splitOnChar '-' cs with
    | [yp, mp, dp] => mkDate yp mp dp
    | _ => Val.vnone
  else if '/' ∈ cs then
    match splitOnChar '/' cs with
    | [p0, p1, p2] =>
      if p0.length = 4 ∧ allDigit p0 = true then mkDate p0 p1 p2
      else
        match pyInt p0, pyInt p1 with
        | some first, some second =>
          if 12 < first then mkDate p2 p1 p0
          else if 12 < second then mkDate p2 p0 p1
          else mkDate p2 p1 p0
        | _, _ => Val.vnone
    | _ => Val.vnone
  else Val.vnone

/-- The spec's `parse_dob`: like the code's, but total. -/
def specParseDob (v : Val) : Val :=
  if v = Val.vnone ∨ v = Val.vstr "" ∨ v = Val.vstr "None" then Val.vnone
  else specParseCore (trimChars (pyStr v).data)

/-- The inputs on which the code's `parse_dob` does not raise: whenever the
slash branch reaches the unguarded `int(parts[0]), int(parts[1])` (three
slash parts, first part not of length 4), both parts parse as Python
integers. -/
def dobIntOkCore (cs : List Char) : Bool :=
  if '-' ∈ cs then true
  else
    match splitOnChar '/' cs with
    | [p0, p1, _] =>
      if p0.length = 4 then true
      else (pyInt p0).isSome && (pyInt p1).isSome
    | _ => true

def dobIntOk (v : Val) : Bool :=
  if v = Val.vnone ∨ v = Val.vstr "" ∨ v = Val.vstr "None" then true
  else dobIntOkCore (trimChars (pyStr v).data)

/-- 1 when the row carries a parsed date, 0 otherwise (the completeness
contribution a second pipeline run destroys). -/
def dateBit (r : Row) : Nat :=
  match r.date_of_birth with
  | Val.vdate _ _ _ => 1
  | _ => 0

/-- Row-level facts that hold for every row a successful `clean_pipeline`
run produces (derived in `clean_pipeline_ok_cleaned`). -/
def cleanedRow (r : Row) : Prop :=
  markerNotes r.notes = false ∧
  gender_map r.gender = r.gender ∧
  (r.date_of_birth = Val.vnone ∨ ∃ y m d, r.date_of_birth = Val.vdate y m d) ∧
  (r.annual_income = Val.vnone ∨ ∃ n : ℤ, r.annual_income = Val.vnum (n : ℚ)) ∧
  ltZero r.credit_history_months = .ok false ∧
  ltZero r.savings_balance = .ok false ∧
  r.email_valid = Val.vbool (is_valid_email r.email) ∧
  r.completeness_score = Val.vnum (mkRat (count_complete r) 1) ∧
  r.completeness_pct = Val.vnum (pct_formula (count_complete r))

/-- What a second `clean_pipeline` run does to a cleaned row (proved in
`clean_pipeline_rerun`): audit columns are rewritten from the current
values, the parsed date degrades to no-date, the completeness columns drop
by the date's contribution, and the other flags are recomputed to the same
values. -/
def rerunRow (t1 : List Row) (r : Row) : Row :=
  { r with gender_original := r.gender,
           date_of_birth_original := r.date_of_birth,
           date_of_birth := Val.vnone,
           email_valid := Val.vbool (is_valid_email r.email),
           completeness_score := Val.vnum (mkRat (count_complete r - dateBit r) 1),
           completeness_pct := Val.vnum (pct_formula (count_complete r - dateBit r)),
           ssn_duplicate_flag := Val.vbool (decide (r.ssn ∈ dup_ssns t1)) }

/-- A second full pipeline run on the (audit-stripped) output of a first
run. -/
def clean_twice (t0 : List Row) : Except Unit (List Row) :=
  match clean_pipeline t0 with
  | .error e => .error e
  | .ok t1 => clean_pipeline (stripAudit t1)

/-- A fully-populated application row whose date of birth parses: every
core field present, ISO date, integer income, valid email, unique ssn. -/
def c4row : Row :=
  { app_id := Val.vstr "A1", full_name := Val.vstr "Jane", email := Val.vstr "a@b.co",
    ssn := Val.vstr "111", ip_address := Val.vstr "ip", gender := Val.vstr "Female",
    date_of_birth := Val.vstr "2020-05-01", zip_code := Val.vstr "z",
    annual_income := Val.vnum (mkRat 50000 1), credit_history_months := Val.vnum (mkRat 12 1),
    debt_to_income := Val.vnum (mkRat 1 1), savings_balance := Val.vnum (mkRat 5 1),
    loan_approved := Val.vbool true }

/-- The row `clean_pipeline` produces from `[c4row]`: date parsed, audit
columns filled, flags and completeness columns computed. -/
def c4out : Row :=
  { app_id := Val.vstr "A1", full_name := Val.vstr "Jane", email := Val.vstr "a@b.co",
    ssn := Val.vstr "111", ip_address := Val.vstr "ip", gender := Val.vstr "Female",
    date_of_birth := Val.vdate 2020 5 1, zip_code := Val.vstr "z",
    annual_income := Val.vnum (mkRat 50000 1), credit_history_months := Val.vnum (mkRat 12 1),
    debt_to_income := Val.vnum (mkRat 1 1), savings_balance := Val.vnum (mkRat 5 1),
    loan_approved := Val.vbool true,
    gender_original := Val.vstr "Female", date_of_birth_original := Val.vstr "2020-05-01",
    email_valid := Val.vbool true, completeness_score := Val.vnum (mkRat 12 1),
    completeness_pct := Val.vnum (mkRat 100 1), ssn_duplicate_flag := Val.vbool false }

/-! # Helper lemmas -/

theorem presentVal_iff (v : Val) :
    presentVal v = true ↔ v ≠ Val.vnone ∧ v ≠ Val.vstr "" := by
  simp [presentVal]

theorem foldl_ite_count (p : Val → Bool) (l : List Val) (n : Nat) :
    l.foldl (fun acc v => if p v then acc + 1 else acc) n = n + l.countP p := by
  induction l generalizing n with
  | nil => simp
  | cons a l ih =>
    simp only [List.foldl_cons, List.countP_cons, ih]
    by_cases h : p a = true <;> simp [h] <;> omega

theorem count_complete_eq_specCount (r : Row) : count_complete r = specCount r := by
  unfold count_complete specCount
  rw [foldl_ite_count]
  simp only [Nat.zero_add]
  congr 1
  funext v
  by_cases h1 : v = Val.vnone <;> by_cases h2 : v = Val.vstr "" <;>
    simp [presentVal, h1, h2]

theorem specCount_le_twelve (r : Row) : specCount r ≤ 12 := by
  have h : specCount r ≤ (core_fields r).length := List.countP_le_length _
  have hlen : (core_fields r).length = 12 := rfl
  omega

/-! ## Bridges between the reducible numeric layer and the field operations -/

theorem mkRat_natCast (k : ℕ) : mkRat (k : ℤ) 1 = (k : ℚ) := by
  rw [Rat.mkRat_eq_divInt, Nat.cast_one, Rat.divInt_one]
  norm_cast

theorem qMulInt_eq (q : ℚ) (n : ℤ) : qMulInt q n = q * (n : ℚ) := by
  rw [qMulInt, Rat.divInt_eq_div]
  push_cast
  conv_rhs => rw [← Rat.num_div_den q, div_mul_eq_mul_div]

theorem qDivInt_eq (q : ℚ) (n : ℤ) : qDivInt q n = q / (n : ℚ) := by
  rw [qDivInt, Rat.divInt_eq_div]
  push_cast
  conv_rhs => rw [← Rat.num_div_den q, div_div]

theorem round1_eq (q : ℚ) : round1 q = ((roundHalfEven (q * 10) : ℤ) : ℚ) / 10 := by
  rw [round1, Rat.divInt_eq_div, qMulInt_eq]
  norm_num

theorem pct_formula_eq (k : ℕ) :
    pct_formula k = round1 ((k : ℚ) / 12 * 100) := by
  rw [pct_formula, mkRat_natCast, qDivInt_eq, qMulInt_eq]
  norm_num

theorem rat_floor_eq (q : ℚ) : q.floor = ⌊q⌋ := by
  rw [Rat.floor_def', Rat.floor_def]

theorem rat_num_eq_mul_den (q : ℚ) : (q.num : ℚ) = q * (q.den : ℚ) := by
  have hden : ((q.den : ℚ)) ≠ 0 := Nat.cast_ne_zero.mpr q.den_ne_zero
  exact (div_eq_iff hden).mp (Rat.num_div_den q)

/-- Tie case of `roundHalfEven`: exactly halfway rounds to the even
neighbour of `⌊q⌋`. -/
theorem roundHalfEven_tie (q : ℚ) (h : q - ⌊q⌋ = 1/2) :
    roundHalfEven q = if ⌊q⌋ % 2 = 0 then ⌊q⌋ else ⌊q⌋ + 1 := by
  have key : 2 * (q.num - ⌊q⌋ * (q.den : ℤ)) = (q.den : ℤ) := by
    have h2 : (2 * (q.num - ⌊q⌋ * (q.den : ℤ)) : ℚ) = ((q.den : ℤ) : ℚ) := by
      push_cast [rat_num_eq_mul_den]
      linear_combination (2 * (q.den : ℚ)) * h
    exact_mod_cast h2
  simp only [roundHalfEven, rat_floor_eq, key, lt_irrefl, if_false]

/-- `roundHalfEven` fixes integers. -/
theorem roundHalfEven_int (n : ℤ) : roundHalfEven ((n : ℚ)) = n := by
  have h1 : ((n : ℚ)).num = n := Rat.num_intCast n
  have h2 : ((n : ℚ)).den = 1 := Rat.den_intCast n
  have h3 : ((n : ℚ)).floor = n := by rw [rat_floor_eq, Int.floor_intCast]
  simp only [roundHalfEven, h1, h2, h3]
  norm_num

theorem gender_map_eq_specGender (v : Val) : gender_map v = specGender v := by
  unfold gender_map specGender
  split_ifs with h1 h2 h3 h4 h5 <;> first | rfl | tauto

/-! # Claim C6 -/

/-- Claim C6: `standardize_gender` first copies the gender column into
`gender_original`, then replaces each gender value by exact, case-sensitive
lookup: "Male"/"M" ↦ "Male", "Female"/"F" ↦ "Female", and every other value
(empty string, no-value, unrecognized literals such as "male") becomes the
no-value marker. -/
theorem C6_standardize_gender :
    (∀ t : List Row, standardize_gender t =
      t.map fun r => { r with gender_original := r.gender, gender := specGender r.gender }) ∧
    gender_map (Val.vstr "male") = Val.vnone ∧
    gender_map (Val.vstr "") = Val.vnone ∧
    gender_map Val.vnone = Val.vnone := by
  refine ⟨fun t => ?_, by decide, by decide, by decide⟩
  unfold standardize_gender
  exact List.map_congr_left fun r _ => by rw [gender_map_eq_specGender]

/-! # Claim C7 -/

/-- Claim C7: `flag_missing_fields` sets `completeness_score` to the number
of the 12 core fields that are present and non-empty, and `completeness_pct`
to `score / 12 * 100` rounded to one decimal; the percentage always lies in
[0, 100], and a row missing exactly `email` and `ssn` scores 10 and 83.3. -/
theorem C7_flag_missing_fields :
    (∀ t : List Row, flag_missing_fields t = t.map fun r =>
      { r with completeness_score := Val.vnum ((specCount r : ℚ)),
               completeness_pct := Val.vnum (round1 ((specCount r : ℚ) / 12 * 100)) }) ∧
    (∀ r : Row, 0 ≤ pct_formula (count_complete r) ∧
      pct_formula (count_complete r) ≤ 100) ∧
    flag_missing_fields
        [{ full_name := Val.vstr "Jane Roe", ip_address := Val.vstr "10.0.0.1",
           gender := Val.vstr "Female", date_of_birth := Val.vdate 2000 1 2,
           zip_code := Val.vstr "99999", annual_income := Val.vnum 50000,
           credit_history_months := Val.vnum 24, debt_to_income := Val.vnum (mkRat 3 10),
           savings_balance := Val.vnum 1200, loan_approved := Val.vbool true }]
      = [{ full_name := Val.vstr "Jane Roe", ip_address := Val.vstr "10.0.0.1",
           gender := Val.vstr "Female", date_of_birth := Val.vdate 2000 1 2,
           zip_code := Val.vstr "99999", annual_income := Val.vnum 50000,
           credit_history_months := Val.vnum 24, debt_to_income := Val.vnum (mkRat 3 10),
           savings_balance := Val.vnum 1200, loan_approved := Val.vbool true,
           completeness_score := Val.vnum 10, completeness_pct := Val.vnum (mkRat 833 10) }] := by
  refine ⟨fun t => ?_, fun r => ?_, by decide⟩
  · unfold flag_missing_fields
    refine List.map_congr_left fun r _ => ?_
    rw [count_complete_eq_specCount, pct_formula_eq, mkRat_natCast]
  · have h12 : count_complete r ≤ 12 := by
      rw [count_complete_eq_specCount]; exact specCount_le_twelve r
    set k := count_complete r with hk
    interval_cases k <;> exact ⟨by decide, by decide⟩

/-! # Claim C8 -/

/-- Claim C8: `fix_income_types` coerces `annual_income` to numeric; every
unparseable value becomes the no-value marker and every parsed value is
rounded to a whole number, so afterwards each row's `annual_income` is
either no-value or an integer-valued number. -/
theorem C8_fix_income_types (t : List Row) (r : Row) (h : r ∈ fix_income_types t) :
    r.annual_income = Val.vnone ∨ ∃ n : ℤ, r.annual_income = Val.vnum (n : ℚ) := by
  unfold fix_income_types at h
  rcases List.mem_map.mp h with ⟨r0, _, rfl⟩
  cases htn : toNumeric r0.annual_income with
  | none => left; simp [htn]
  | some q => right; exact ⟨roundHalfEven q, by simp [htn]⟩

theorem C8_fix_income_types_witness :
    ({ annual_income := Val.vnone } : Row).annual_income = Val.vnone ∨
      ∃ n : ℤ, ({ annual_income := Val.vnone } : Row).annual_income = Val.vnum (n : ℚ) :=
  C8_fix_income_types [{ annual_income := Val.vstr "not a number" }] _ (by decide)

/-! # Claim C10 -/

/-- Claim C10: in `fix_income_types`, a parsed `annual_income` lying exactly
halfway between two whole numbers is rounded half-to-even (2.5 ↦ 2,
3.5 ↦ 4, 0.5 ↦ 0), not half-up. -/
theorem C10_income_tie_half_even :
    (∀ k : ℤ, roundHalfEven ((k : ℚ) + 1/2) = if k % 2 = 0 then k else k + 1) ∧
    fix_income_types
        [{ annual_income := Val.vnum (mkRat 5 2) }, { annual_income := Val.vnum (mkRat 7 2) },
         { annual_income := Val.vnum (mkRat 1 2) }, { annual_income := Val.vstr "2.5" }]
      = [{ annual_income := Val.vnum 2 }, { annual_income := Val.vnum 4 },
         { annual_income := Val.vnum 0 }, { annual_income := Val.vnum 2 }] := by
  constructor
  · intro k
    have hfl : ⌊(k : ℚ) + 1/2⌋ = k := by
      rw [add_comm, Int.floor_add_int]
      norm_num
    have hfr : (k : ℚ) + 1/2 - ⌊(k : ℚ) + 1/2⌋ = 1/2 := by
      rw [hfl]; ring
    rw [roundHalfEven_tie _ hfr, hfl]
  · decide

/-! # Claim C5 -/

theorem splitAtFirst_append (sep : Char) (l t : List Char) (h : sep ∉ l) :
    splitAtFirst sep (l ++ sep :: t) = some (l, t) := by
  induction l with
  | nil => simp [splitAtFirst]
  | cons c cs ih =>
    have hc : c ≠ sep := fun hc => h (hc ▸ List.mem_cons_self c cs)
    have hcs : sep ∉ cs := fun hm => h (List.mem_cons_of_mem c hm)
    simp only [List.cons_append, splitAtFirst, if_neg hc, List.append_eq, ih hcs,
      Option.map_some']

theorem splitAtFirst_eq_some (sep : Char) (cs l t : List Char)
    (h : splitAtFirst sep cs = some (l, t)) : cs = l ++ sep :: t ∧ sep ∉ l := by
  induction cs generalizing l with
  | nil => simp [splitAtFirst] at h
  | cons c cs ih =>
    by_cases hc : c = sep
    · simp only [splitAtFirst, if_pos hc, Option.some.injEq, Prod.mk.injEq] at h
      subst hc
      rw [← h.1, ← h.2]
      exact ⟨rfl, by simp⟩
    · simp only [splitAtFirst, if_neg hc] at h
      cases hsp : splitAtFirst sep cs with
      | none => rw [hsp] at h; simp at h
      | some p =>
        rw [hsp] at h
        simp only [Option.map_some', Option.some.injEq] at h
        have hl : c :: p.1 = l := congrArg Prod.fst h
        have ht : p.2 = t := congrArg Prod.snd h
        have hsp2 : splitAtFirst sep cs = some (p.1, t) := by rw [hsp, ← ht]
        obtain ⟨hp1, hp2⟩ := ih p.1 hsp2
        subst hl
        constructor
        · rw [List.cons_append, hp1]
        · intro hm
          rcases List.mem_cons.mp hm with h1 | h1
          · exact hc h1.symm
          · exact hp2 h1

theorem matchCore_iff (cs : List Char) : matchCore cs = true ↔ emailLang cs := by
  constructor
  · intro h
    unfold matchCore at h
    cases hsp : splitAtFirst '@' cs with
    | none => rw [hsp] at h; simp at h
    | some p =>
      rw [hsp] at h
      simp only [Bool.and_eq_true, decide_eq_true_eq] at h
      obtain ⟨⟨hl, hlc⟩, hdom⟩ := h
      obtain ⟨hcs, _⟩ := splitAtFirst_eq_some '@' cs p.1 p.2 (by rw [hsp])
      unfold domainOk at hdom
      rw [List.any_eq_true] at hdom
      obtain ⟨i, hi, hcond⟩ := hdom
      rw [List.mem_range] at hi
      simp only [Bool.and_eq_true, decide_eq_true_eq] at hcond
      obtain ⟨⟨hipos, htake⟩, htld⟩ := hcond
      cases hdrop : p.2.drop i with
      | nil => rw [hdrop] at htld; simp [tldOk] at htld
      | cons c0 rest =>
        rw [hdrop] at htld
        simp only [tldOk, Bool.and_eq_true, beq_iff_eq, decide_eq_true_eq] at htld
        obtain ⟨⟨hc0, hlen⟩, halpha⟩ := htld
        refine ⟨p.1, p.2.take i, rest, ?_, hl, hlc, ?_, htake, hlen, halpha⟩
        · rw [hcs]
          congr 1
          congr 1
          rw [← hc0, ← hdrop]
          exact (List.take_append_drop i p.2).symm
        · have : (p.2.take i).length = i := List.length_take_of_le (le_of_lt hi)
          intro hnil
          rw [hnil] at this
          simp at this
          omega
  · rintro ⟨l, d, c, rfl, hl, hlc, hd, hdc, hclen, hca⟩
    have hat : '@' ∉ l := by
      intro hm
      have := List.all_eq_true.mp hlc '@' hm
      simp [isLocalChar] at this
    unfold matchCore
    rw [splitAtFirst_append '@' l _ hat]
    simp only [Bool.and_eq_true, decide_eq_true_eq]
    refine ⟨⟨hl, hlc⟩, ?_⟩
    unfold domainOk
    rw [List.any_eq_true]
    refine ⟨d.length, ?_, ?_⟩
    · rw [List.mem_range, List.length_append, List.length_cons]
      omega
    · have hdpos : 0 < d.length := List.length_pos.mpr hd
      simp only [Bool.and_eq_true, decide_eq_true_eq]
      rw [List.take_left d ('.' :: c), List.drop_left d ('.' :: c)]
      refine ⟨⟨hdpos, hdc⟩, ?_⟩
      simp only [tldOk, Bool.and_eq_true, beq_iff_eq, decide_eq_true_eq]
      exact ⟨⟨by trivial, hclen⟩, hca⟩

/-- Claim C5 (corrected part): on `"a@b.co\n"` the code flags the email as
valid although the entire string does not match the pattern — Python `$`
accepts the trailing newline, contradicting the claim's "entire string must
match" reading, under which this value would be invalid. -/
theorem C5_counterexample :
    validate_emails [{ email := Val.vstr "a@b.co\n" }]
      = [{ email := Val.vstr "a@b.co\n", email_valid := Val.vbool true }] ∧
    matchCore ("a@b.co\n").data = false := by
  constructor
  · decide
  · decide

/-- Claim C5 as amended: `validate_emails` adds a boolean `email_valid` that
is true iff the email value is present, non-empty, and the string — or the
string minus a single trailing newline (Python `$` semantics) — decomposes
entirely as one-or-more local characters, `@`, one-or-more domain
characters, `.`, and two-or-more letters; no-value or empty string give
false. `"a@b.co"` is valid, `"bad@"` and no-value are not. -/
theorem C5_validate_emails :
    (∀ t : List Row, validate_emails t =
      t.map fun r => { r with email_valid := Val.vbool (is_valid_email r.email) }) ∧
    (∀ cs, matchCore cs = true ↔ emailLang cs) ∧
    (∀ v : Val, is_valid_email v = true ↔
      (v ≠ Val.vnone ∧ v ≠ Val.vstr "" ∧
        (emailLang (pyStr v).data ∨
          ((pyStr v).data.getLast? = some '\n' ∧ emailLang (pyStr v).data.dropLast)))) ∧
    is_valid_email (Val.vstr "a@b.co") = true ∧
    is_valid_email (Val.vstr "bad@") = false ∧
    is_valid_email Val.vnone = false := by
  refine ⟨fun t => rfl, matchCore_iff, fun v => ?_, by decide, by decide, by decide⟩
  unfold is_valid_email
  by_cases hv : v = Val.vnone ∨ v = Val.vstr ""
  · rw [if_pos hv]
    simp only [Bool.false_eq_true, false_iff]
    intro hcon
    rcases hv with hv | hv
    · exact hcon.1 hv
    · exact hcon.2.1 hv
  · rw [if_neg hv]
    push_neg at hv
    unfold emailMatch
    simp only [Bool.or_eq_true, Bool.and_eq_true, beq_iff_eq, matchCore_iff]
    tauto

/-! # Claim C9 -/

theorem mem_dup_ssns_iff (t : List Row) (r : Row) (hr : r ∈ t) :
    r.ssn ∈ dup_ssns t ↔ (ssnPresent r = true ∧ 1 < (ssnPool t).count r.ssn) := by
  unfold dup_ssns
  rw [List.mem_filter]
  constructor
  · rintro ⟨hmem, hcnt⟩
    unfold ssnPool at hmem
    rw [List.mem_map] at hmem
    obtain ⟨x, hx, hxs⟩ := hmem
    have hxp := (List.mem_filter.mp hx).2
    refine ⟨?_, by simpa using hcnt⟩
    unfold ssnPresent at hxp ⊢
    rw [← hxs]
    exact hxp
  · rintro ⟨hp, hcnt⟩
    refine ⟨?_, by simpa using hcnt⟩
    unfold ssnPool
    rw [List.mem_map]
    exact ⟨r, List.mem_filter.mpr ⟨hr, hp⟩, rfl⟩

/-- Claim C9: `flag_ssn_duplicates` adds a boolean `ssn_duplicate_flag`
that is true for a row iff its ssn is present, non-empty, and occurs on
more than one row among the rows with a present non-empty ssn; rows with
missing/empty ssn are flagged false, no rows are removed; SSNs
`"111","111","222"` flag as true, true, false. -/
theorem C9_flag_ssn_duplicates :
    (∀ t : List Row, flag_ssn_duplicates t =
      t.map fun r => { r with ssn_duplicate_flag := Val.vbool (specDupFlag t r) }) ∧
    flag_ssn_duplicates
        [{ app_id := Val.vstr "a1", ssn := Val.vstr "111" },
         { app_id := Val.vstr "a2", ssn := Val.vstr "111" },
         { app_id := Val.vstr "a3", ssn := Val.vstr "222" }]
      = [{ app_id := Val.vstr "a1", ssn := Val.vstr "111",
           ssn_duplicate_flag := Val.vbool true },
         { app_id := Val.vstr "a2", ssn := Val.vstr "111",
           ssn_duplicate_flag := Val.vbool true },
         { app_id := Val.vstr "a3", ssn := Val.vstr "222",
           ssn_duplicate_flag := Val.vbool false }] ∧
    (∀ (t : List Row) (r : Row), ssnPresent r = false → specDupFlag t r = false) := by
  refine ⟨fun t => ?_, by decide, fun t r hp => ?_⟩
  · unfold flag_ssn_duplicates
    refine List.map_congr_left fun r hr => ?_
    have hiff := mem_dup_ssns_iff t r hr
    have hb : decide (r.ssn ∈ dup_ssns t) = specDupFlag t r := by
      rw [Bool.eq_iff_iff]
      simp only [decide_eq_true_eq, specDupFlag, Bool.and_eq_true]
      exact hiff
    rw [hb]
  · unfold specDupFlag
    rw [hp]
    simp

/-! # Claim C3 -/

theorem dropSeen_sublist (t : List Row) (seen : List Val) :
    (dropSeen t seen).Sublist t := by
  induction t generalizing seen with
  | nil => simp [dropSeen]
  | cons r rs ih =>
    unfold dropSeen
    by_cases h : r.app_id ∈ seen
    · rw [if_pos h]
      exact (ih seen).cons r
    · rw [if_neg h]
      exact (ih (r.app_id :: seen)).cons₂ r

theorem dropSeen_nodup (t : List Row) (seen : List Val) :
    ((dropSeen t seen).map Row.app_id).Nodup ∧
      ∀ a ∈ (dropSeen t seen).map Row.app_id, a ∉ seen := by
  induction t generalizing seen with
  | nil => simp [dropSeen]
  | cons r rs ih =>
    unfold dropSeen
    by_cases h : r.app_id ∈ seen
    · rw [if_pos h]
      exact ih seen
    · rw [if_neg h]
      obtain ⟨ihn, ihs⟩ := ih (r.app_id :: seen)
      simp only [List.map_cons, List.nodup_cons]
      refine ⟨⟨?_, ihn⟩, ?_⟩
      · intro hmem
        exact (ihs r.app_id hmem) (List.mem_cons_self _ _)
      · intro a ha
        rcases List.mem_cons.mp ha with h1 | h1
        · rw [h1]; exact h
        · intro hseen
          exact (ihs a h1) (List.mem_cons_of_mem _ hseen)

theorem dropSeen_find (t : List Row) (seen : List Val) (a : Val) (ha : a ∉ seen) :
    (dropSeen t seen).find? (fun r => r.app_id == a)
      = t.find? (fun r => r.app_id == a) := by
  induction t generalizing seen with
  | nil => simp [dropSeen]
  | cons r rs ih =>
    unfold dropSeen
    by_cases h : r.app_id ∈ seen
    · rw [if_pos h]
      have hbeq : (r.app_id == a) = false := by
        rw [beq_eq_false_iff_ne]
        intro he
        exact ha (he ▸ h)
      rw [ih seen ha, List.find?_cons]
      simp [hbeq]
    · rw [if_neg h]
      by_cases he : r.app_id = a
      · have hbeq : (r.app_id == a) = true := beq_iff_eq.mpr he
        rw [List.find?_cons, List.find?_cons]
        simp [hbeq]
      · have hbeq : (r.app_id == a) = false := by
          rw [beq_eq_false_iff_ne]; exact he
        rw [List.find?_cons, List.find?_cons]
        simp only [hbeq]
        refine ih (r.app_id :: seen) ?_
        intro hmem
        rcases List.mem_cons.mp hmem with h1 | h1
        · exact he h1.symm
        · exact ha h1

/-- Claim C3: `remove_duplicates` first drops every row whose notes equal
"DUPLICATE_ENTRY_ERROR" or "RESUBMISSION", then keeps only the first
table-order occurrence of each `app_id`, preserving relative order; the
result's `app_id`s are pairwise distinct, the kept row for any id is the
first surviving occurrence, and on a two-row table sharing `app_id` "A1"
with one RESUBMISSION the non-resubmission row alone survives (first
occurrence if neither is marked). -/
theorem C3_remove_duplicates :
    (∀ t : List Row,
      (remove_duplicates t).Sublist (t.filter fun r => !markerNotes r.notes) ∧
      (remove_duplicates t).Sublist t ∧
      ((remove_duplicates t).map Row.app_id).Nodup ∧
      (∀ a : Val, (remove_duplicates t).find? (fun r => r.app_id == a)
        = (t.filter fun r => !markerNotes r.notes).find? (fun r => r.app_id == a))) ∧
    remove_duplicates
        [{ app_id := Val.vstr "A1", email := Val.vstr "good" },
         { app_id := Val.vstr "A1", notes := Val.vstr "RESUBMISSION" }]
      = [{ app_id := Val.vstr "A1", email := Val.vstr "good" }] ∧
    remove_duplicates
        [{ app_id := Val.vstr "A1", notes := Val.vstr "RESUBMISSION" },
         { app_id := Val.vstr "A1", email := Val.vstr "good" }]
      = [{ app_id := Val.vstr "A1", email := Val.vstr "good" }] ∧
    remove_duplicates
        [{ app_id := Val.vstr "A1", email := Val.vstr "first" },
         { app_id := Val.vstr "A1", email := Val.vstr "second" }]
      = [{ app_id := Val.vstr "A1", email := Val.vstr "first" }] := by
  refine ⟨fun t => ?_, by decide, by decide, by decide⟩
  have hsub : (remove_duplicates t).Sublist (t.filter fun r => !markerNotes r.notes) :=
    dropSeen_sublist _ []
  refine ⟨hsub, hsub.trans (List.filter_sublist t), (dropSeen_nodup _ []).1, fun a => ?_⟩
  exact dropSeen_find _ [] a (List.not_mem_nil a)

/-! # Claim C1 -/

theorem mkDate_vnone_of_yp (yp mp dp : List Char) (h : ¬ allDigit yp = true) :
    mkDate yp mp dp = Val.vnone := by
  unfold mkDate
  rw [if_neg]
  intro hc
  exact h hc.1

theorem mkDate_vnone_of_mp (yp mp dp : List Char) (h : ¬ allDigit mp = true) :
    mkDate yp mp dp = Val.vnone := by
  unfold mkDate
  rw [if_neg]
  intro hc
  exact h hc.2.1

theorem mkDate_vnone_of_dp (yp mp dp : List Char) (h : ¬ allDigit dp = true) :
    mkDate yp mp dp = Val.vnone := by
  unfold mkDate
  rw [if_neg]
  intro hc
  exact h hc.2.2.1

/-- On every input where the unguarded `int(...)` calls succeed, the code's
`parse_dob` core agrees with the spec's total parsing precedence. -/
theorem parseDobCore_eq_spec (cs : List Char) (h : dobIntOkCore cs = true) :
    parseDobCore cs = .ok (specParseCore cs) := by
  unfold parseDobCore specParseCore
  by_cases h0 : cs = []
  · rw [if_pos h0, if_pos h0]
  · rw [if_neg h0, if_neg h0]
    by_cases h1 : '-' ∈ cs
    · rw [if_pos h1, if_pos h1]
    · rw [if_neg h1, if_neg h1]
      by_cases h2 : '/' ∈ cs
      · rw [if_pos h2, if_pos h2]
        unfold dobIntOkCore at h
        rw [if_neg h1] at h
        cases hsp : splitOnChar '/' cs with
        | nil => rfl
        | cons p0 t0 =>
          cases t0 with
          | nil => rfl
          | cons p1 t1 =>
            cases t1 with
            | nil => rfl
            | cons p2 t2 =>
              cases t2 with
              | cons p3 t3 => rfl
              | nil =>
                rw [hsp] at h
                dsimp only at h ⊢
                by_cases h4 : p0.length = 4
                · rw [if_pos h4]
                  by_cases hd : allDigit p0 = true
                  · rw [if_pos ⟨h4, hd⟩]
                  · rw [if_neg (fun hc => hd hc.2)]
                    have e1 : mkDate p0 p1 p2 = Val.vnone := mkDate_vnone_of_yp _ _ _ hd
                    have e2 : mkDate p2 p1 p0 = Val.vnone := mkDate_vnone_of_dp _ _ _ hd
                    have e3 : mkDate p2 p0 p1 = Val.vnone := mkDate_vnone_of_mp _ _ _ hd
                    cases hp0 : pyInt p0 with
                    | none => rw [e1]
                    | some first =>
                      cases hp1 : pyInt p1 with
                      | none => rw [e1]
                      | some second =>
                        rw [e1, e2, e3]
                        dsimp only
                        split_ifs <;> rfl
                · rw [if_neg h4] at h
                  rw [if_neg h4, if_neg (fun hc => h4 hc.1)]
                  cases hp0 : pyInt p0 with
                  | none => rw [hp0] at h; simp at h
                  | some first =>
                    cases hp1 : pyInt p1 with
                    | none => rw [hp0, hp1] at h; simp at h
                    | some second =>
                      dsimp only
                      split_ifs <;> rfl
      · rw [if_neg h2, if_neg h2]

/-- Claim C1: `normalize_dates` follows the specified format precedence —
null/empty/"None"/whitespace to no-date; a '-' value parsed strictly as
YYYY-MM-DD only; otherwise a '/' value split into exactly 3 parts and
parsed as YYYY/MM/DD when part 1 has 4 digits, DD/MM/YYYY when the first
part exceeds 12, MM/DD/YYYY when the second exceeds 12, DD/MM/YYYY in the
ambiguous case; anything else no-date — with the claim's example table.
(Stated under the hypothesis `dobIntOk v`, i.e. the unguarded `int()` calls
succeed; on other inputs the code raises instead — see claim C2.) -/
theorem C1_normalize_dates (v : Val) (h : dobIntOk v = true) :
    parse_dob v = .ok (specParseDob v) ∧
    parse_dob (Val.vstr "2020-05-01") = .ok (Val.vdate 2020 5 1) ∧
    parse_dob (Val.vstr "13/05/2020") = .ok (Val.vdate 2020 5 13) ∧
    parse_dob (Val.vstr "05/13/2020") = .ok (Val.vdate 2020 5 13) ∧
    parse_dob (Val.vstr "05/04/2020") = .ok (Val.vdate 2020 4 5) ∧
    parse_dob (Val.vstr "not-a-date") = .ok Val.vnone ∧
    parse_dob (Val.vstr "   ") = .ok Val.vnone ∧
    parse_dob (Val.vstr "None") = .ok Val.vnone ∧
    parse_dob Val.vnone = .ok Val.vnone ∧
    (∀ r : Row, normalize_dates [r] = (parse_dob r.date_of_birth).map fun d =>
      [{ r with date_of_birth_original := r.date_of_birth, date_of_birth := d }]) := by
  refine ⟨?_, by decide, by decide, by decide, by decide, by decide, by decide,
    by decide, by decide, fun r => ?_⟩
  · unfold parse_dob specParseDob dobIntOk at *
    by_cases hn : v = Val.vnone ∨ v = Val.vstr "" ∨ v = Val.vstr "None"
    · rw [if_pos hn, if_pos hn]
    · rw [if_neg hn] at h
      rw [if_neg hn, if_neg hn]
      exact parseDobCore_eq_spec _ h
  · unfold normalize_dates mapE
    cases hp : parse_dob r.date_of_birth with
    | error e => rfl
    | ok d => rfl

theorem C1_normalize_dates_witness :
    parse_dob (Val.vstr "05/04/2020")
      = .ok (specParseDob (Val.vstr "05/04/2020")) :=
  (C1_normalize_dates (Val.vstr "05/04/2020") (by decide)).1

/-! # Claim C2 -/

/-- Claim C2 (refuted — this is a genuine code bug): per-value coercion
failures are NOT always absorbed. `parse_dob` leaves the
`int(parts[0]), int(parts[1])` conversions outside any `try`, so a
3-part slash value with a non-integer first or second part (e.g.
"ab/cd/2020") raises an uncaught `ValueError` through `normalize_dates`
(the spec's precedence instead maps it to no-date, as `specParseDob`
shows), and `fix_invalid_values` raises an uncaught `TypeError` when
`credit_history_months` or `savings_balance` holds a string (e.g. "36"),
because `Series < 0` cannot compare `str` with `int`. -/
theorem C2_per_value_failures_can_raise :
    parse_dob (Val.vstr "ab/cd/2020") = .error () ∧
    normalize_dates [{ date_of_birth := Val.vstr "ab/cd/2020" }] = .error () ∧
    specParseDob (Val.vstr "ab/cd/2020") = Val.vnone ∧
    fix_invalid_values [{ credit_history_months := Val.vstr "36" }] = .error () ∧
    fix_invalid_values [{ savings_balance := Val.vstr "-10" }] = .error () := by
  refine ⟨by decide, by decide, by decide, by decide, by decide⟩

/-! # Claim C4 — groundwork -/

theorem digitChar_isDigit (m : Nat) (h : m < 10) : (Nat.digitChar m).isDigit = true := by
  interval_cases m <;> decide

theorem natChars_ne_nil (n : Nat) : natChars n ≠ [] := by
  rw [natChars]
  split
  · simp
  · simp

theorem natChars_all_digit (n : Nat) : ∀ c ∈ natChars n, c.isDigit = true := by
  induction n using Nat.strong_induction_on with
  | _ n ih =>
    rw [natChars]
    split
    · intro c hc
      rw [List.mem_singleton] at hc
      subst hc
      exact digitChar_isDigit n (by omega)
    · intro c hc
      rcases List.mem_append.mp hc with h1 | h1
      · exact ih (n / 10) (Nat.div_lt_self (by omega) (by omega)) c h1
      · rw [List.mem_singleton] at h1
        subst h1
        exact digitChar_isDigit _ (Nat.mod_lt _ (by omega))

theorem padNat_all_digit (k n : Nat) : ∀ c ∈ padNat k n, c.isDigit = true := by
  intro c hc
  rcases List.mem_append.mp hc with h1 | h1
  · rw [List.eq_of_mem_replicate h1]
    decide
  · exact natChars_all_digit n c h1

theorem padNat_ne_nil (k n : Nat) : padNat k n ≠ [] := by
  unfold padNat
  intro h
  exact natChars_ne_nil n (List.append_eq_nil.mp h).2

theorem digit_not_pySpace {c : Char} (h : c.isDigit = true) : isPySpace c = false := by
  rcases hc : isPySpace c with _ | _
  · rfl
  · exfalso
    simp only [isPySpace, Bool.or_eq_true, beq_iff_eq] at hc
    rcases hc with ((((h1 | h1) | h1) | h1) | h1) | h1 <;> subst h1 <;> simp at h

theorem digit_ne_hyphen {c : Char} (h : c.isDigit = true) : c ≠ '-' := by
  intro he
  subst he
  simp at h

theorem hyphen_not_mem_padNat (k n : Nat) : '-' ∉ padNat k n := by
  intro hm
  exact digit_ne_hyphen (padNat_all_digit k n '-' hm) rfl

theorem splitOnChar_no_sep (sep : Char) (cs : List Char) (h : sep ∉ cs) :
    splitOnChar sep cs = [cs] := by
  induction cs with
  | nil => rfl
  | cons c cs ih =>
    have hc : ¬c = sep := fun he => h (he ▸ List.mem_cons_self c cs)
    have hcs : sep ∉ cs := fun hm => h (List.mem_cons_of_mem c hm)
    unfold splitOnChar
    rw [if_neg hc, ih hcs]

theorem splitOnChar_append_sep (sep : Char) (xs ys : List Char) (h : sep ∉ xs) :
    splitOnChar sep (xs ++ sep :: ys) = xs :: splitOnChar sep ys := by
  induction xs with
  | nil => simp [splitOnChar]
  | cons c cs ih =>
    have hc : ¬c = sep := fun he => h (he ▸ List.mem_cons_self c cs)
    have hcs : sep ∉ cs := fun hm => h (List.mem_cons_of_mem c hm)
    rw [List.cons_append]
    have step : splitOnChar sep (c :: (cs ++ sep :: ys)) =
        match splitOnChar sep (cs ++ sep :: ys) with
        | [] => [[c]]
        | p :: ps => (c :: p) :: ps := by
      conv_lhs => rw [splitOnChar]
      rw [if_neg hc]
    rw [step, ih hcs]

theorem dropWhile_eq_self_of_head {p : Char → Bool} {l : List Char} {c : Char}
    (h : l.head? = some c) (hc : p c = false) : l.dropWhile p = l := by
  cases l with
  | nil => simp at h
  | cons a l =>
    rw [List.head?_cons, Option.some.injEq] at h
    subst h
    rw [List.dropWhile_cons, hc]
    simp

theorem trimChars_eq_self {l : List Char} {c0 c1 : Char}
    (h0 : l.head? = some c0) (hc0 : isPySpace c0 = false)
    (h1 : l.getLast? = some c1) (hc1 : isPySpace c1 = false) :
    trimChars l = l := by
  unfold trimChars
  rw [dropWhile_eq_self_of_head h0 hc0]
  rw [dropWhile_eq_self_of_head (by rw [List.head?_reverse]; exact h1) hc1]
  exact List.reverse_reverse l

theorem head?_append_left (l1 l2 : List Char) (h : l1 ≠ []) :
    (l1 ++ l2).head? = l1.head? := by
  cases l1 with
  | nil => exact absurd rfl h
  | cons a l => simp

/-- A second pass of `parse_dob` over an already-parsed date always loses
it: `str(Timestamp)` is "YYYY-MM-DD 00:00:00", whose day group "DD 00:00:00"
is not a 1-2-digit group, so the strict `%Y-%m-%d` parse fails and the value
degrades to no-date. -/
theorem parse_dob_vdate (y m d : Nat) : parse_dob (Val.vdate y m d) = .ok Val.vnone := by
  unfold parse_dob
  rw [if_neg (by simp)]
  have hdata : (pyStr (Val.vdate y m d)).data
      = padNat 4 y ++ '-' :: (padNat 2 m ++ '-' :: (padNat 2 d ++ " 00:00:00".data)) := rfl
  rw [hdata]
  have hnm : '-' ∉ padNat 2 d ++ " 00:00:00".data := by
    intro hm
    rcases List.mem_append.mp hm with h1 | h1
    · exact hyphen_not_mem_padNat 2 d h1
    · revert h1
      decide
  have hhead : ∃ c0, (padNat 4 y).head? = some c0 ∧ c0.isDigit = true := by
    cases hpn : padNat 4 y with
    | nil => exact absurd hpn (padNat_ne_nil 4 y)
    | cons a b =>
      refine ⟨a, rfl, padNat_all_digit 4 y a ?_⟩
      rw [hpn]
      exact List.mem_cons_self _ _
  obtain ⟨c0, hh0, hcd⟩ := hhead
  have hheadL : (padNat 4 y ++ '-' :: (padNat 2 m ++ '-' :: (padNat 2 d ++ " 00:00:00".data))).head?
      = some c0 := by
    rw [head?_append_left _ _ (padNat_ne_nil 4 y), hh0]
  have hlastL : (padNat 4 y ++ '-' :: (padNat 2 m ++ '-' :: (padNat 2 d ++ " 00:00:00".data))).getLast?
      = some '0' := by
    rw [show padNat 4 y ++ '-' :: (padNat 2 m ++ '-' :: (padNat 2 d ++ " 00:00:00".data))
        = (padNat 4 y ++ '-' :: (padNat 2 m ++ '-' :: padNat 2 d)) ++ " 00:00:00".data by
      simp [List.append_assoc]]
    rw [List.getLast?_append_of_ne_nil _ (by decide)]
    decide
  rw [trimChars_eq_self hheadL (digit_not_pySpace hcd) hlastL (by decide)]
  have hsplit : splitOnChar '-'
      (padNat 4 y ++ '-' :: (padNat 2 m ++ '-' :: (padNat 2 d ++ " 00:00:00".data)))
      = [padNat 4 y, padNat 2 m, padNat 2 d ++ " 00:00:00".data] := by
    rw [splitOnChar_append_sep _ _ _ (hyphen_not_mem_padNat 4 y),
        splitOnChar_append_sep _ _ _ (hyphen_not_mem_padNat 2 m),
        splitOnChar_no_sep _ _ hnm]
  have hne : padNat 4 y ++ '-' :: (padNat 2 m ++ '-' :: (padNat 2 d ++ " 00:00:00".data)) ≠ [] := by
    cases hpn : padNat 4 y with
    | nil => exact absurd hpn (padNat_ne_nil 4 y)
    | cons c0 r0 => simp
  have hmem : '-' ∈ padNat 4 y ++ '-' :: (padNat 2 m ++ '-' :: (padNat 2 d ++ " 00:00:00".data)) := by
    rw [List.mem_append]
    exact Or.inr (List.mem_cons_self _ _)
  unfold parseDobCore
  rw [if_neg hne, if_pos hmem, hsplit]
  dsimp only
  have hmk : mkDate (padNat 4 y) (padNat 2 m) (padNat 2 d ++ " 00:00:00".data) = Val.vnone := by
    unfold mkDate
    rw [if_neg]
    intro hc
    have hlen := hc.2.2.2.2.2.2.2.2
    rw [List.length_append] at hlen
    have h1 : 0 < (padNat 2 d).length := List.length_pos.mpr (padNat_ne_nil 2 d)
    have h9 : (" 00:00:00".data).length = 9 := rfl
    omega
  rw [hmk]

theorem mapE_eq_map (f : Row → Except Unit Row) (g : Row → Row) (l : List Row)
    (h : ∀ r ∈ l, f r = .ok (g r)) : mapE f l = .ok (l.map g) := by
  induction l with
  | nil => rfl
  | cons r rs ih =>
    simp only [mapE]
    rw [h r (List.mem_cons_self r rs),
      ih (fun x hx => h x (List.mem_cons_of_mem r hx))]
    rfl

theorem mapE_ok_mem {f : Row → Except Unit Row} {l l2 : List Row}
    (h : mapE f l = .ok l2) : ∀ r2 ∈ l2, ∃ r ∈ l, f r = .ok r2 := by
  induction l generalizing l2 with
  | nil =>
    simp only [mapE] at h
    injection h with h2
    subst h2
    intro r2 hr2
    simp at hr2
  | cons r rs ih =>
    simp only [mapE] at h
    cases hf : f r with
    | error e => rw [hf] at h; simp at h
    | ok rr =>
      rw [hf] at h
      cases hm : mapE f rs with
      | error e => rw [hm] at h; simp at h
      | ok rs2 =>
        rw [hm] at h
        injection h with h2
        subst h2
        intro r2 hr2
        rcases List.mem_cons.mp hr2 with h1 | h1
        · exact ⟨r, List.mem_cons_self r rs, h1 ▸ hf⟩
        · obtain ⟨x, hx, hfx⟩ := ih hm r2 h1
          exact ⟨x, List.mem_cons_of_mem r hx, hfx⟩

theorem mapE_ok_map_field (g : Row → Val) {f : Row → Except Unit Row}
    (hf : ∀ r r2, f r = .ok r2 → g r2 = g r) :
    ∀ {l l2 : List Row}, mapE f l = .ok l2 → l2.map g = l.map g := by
  intro l
  induction l with
  | nil =>
    intro l2 h
    simp only [mapE] at h
    injection h with h2
    subst h2
    rfl
  | cons r rs ih =>
    intro l2 h
    simp only [mapE] at h
    cases hfr : f r with
    | error e => rw [hfr] at h; simp at h
    | ok rr =>
      rw [hfr] at h
      cases hm : mapE f rs with
      | error e => rw [hm] at h; simp at h
      | ok rs2 =>
        rw [hm] at h
        injection h with h2
        subst h2
        rw [List.map_cons, List.map_cons, hf r rr hfr, ih hm]

theorem map_field_of_map (g : Row → Row) (fld : Row → Val) (t : List Row)
    (h : ∀ r, fld (g r) = fld r) : (t.map g).map fld = t.map fld := by
  rw [List.map_map]
  exact List.map_congr_left fun r _ => h r

theorem gender_map_idem (v : Val) : gender_map (gender_map v) = gender_map v := by
  have h : gender_map v = Val.vstr "Male" ∨ gender_map v = Val.vstr "Female" ∨
      gender_map v = Val.vnone := by
    unfold gender_map
    split_ifs <;> simp
  rcases h with h | h | h <;> rw [h] <;> rfl

theorem mkDate_shape (yp mp dp : List Char) :
    mkDate yp mp dp = Val.vnone ∨ ∃ y m d, mkDate yp mp dp = Val.vdate y m d := by
  unfold mkDate
  split_ifs
  · exact Or.inr ⟨_, _, _, rfl⟩
  · exact Or.inl rfl
  · exact Or.inl rfl

theorem parseDobCore_ok_shape (cs : List Char) (d : Val) (h : parseDobCore cs = .ok d) :
    d = Val.vnone ∨ ∃ y m dd, d = Val.vdate y m dd := by
  unfold parseDobCore at h
  by_cases h0 : cs = []
  · rw [if_pos h0] at h
    injection h with h2
    exact Or.inl h2.symm
  · rw [if_neg h0] at h
    by_cases h1 : '-' ∈ cs
    · rw [if_pos h1] at h
      injection h with h2
      rcases hsp : splitOnChar '-' cs with _ | ⟨p0, _ | ⟨p1, _ | ⟨p2, _ | ⟨p3, ps⟩⟩⟩⟩ <;>
          rw [hsp] at h2 <;> dsimp only at h2 <;> rw [← h2] <;>
        first
        | exact Or.inl rfl
        | exact mkDate_shape _ _ _
    · rw [if_neg h1] at h
      by_cases hsl : '/' ∈ cs
      · rw [if_pos hsl] at h
        rcases hsp : splitOnChar '/' cs with _ | ⟨p0, _ | ⟨p1, _ | ⟨p2, _ | ⟨p3, ps⟩⟩⟩⟩ <;>
            rw [hsp] at h <;> dsimp only at h
        · injection h with h2; exact Or.inl h2.symm
        · injection h with h2; exact Or.inl h2.symm
        · injection h with h2; exact Or.inl h2.symm
        · by_cases h4 : p0.length = 4
          · rw [if_pos h4] at h
            injection h with h2
            rw [← h2]
            exact mkDate_shape _ _ _
          · rw [if_neg h4] at h
            cases hp0 : pyInt p0 with
            | none =>
              rw [hp0] at h
              dsimp only at h
              exact absurd h (by simp)
            | some first =>
              rw [hp0] at h
              cases hp1 : pyInt p1 with
              | none =>
                rw [hp1] at h
                dsimp only at h
                exact absurd h (by simp)
              | some second =>
                rw [hp1] at h
                dsimp only at h
                split_ifs at h <;> (injection h with h2; rw [← h2]; exact mkDate_shape _ _ _)
        · injection h with h2; exact Or.inl h2.symm
      · rw [if_neg hsl] at h
        injection h with h2
        exact Or.inl h2.symm

theorem parse_dob_ok_shape (v d : Val) (h : parse_dob v = .ok d) :
    d = Val.vnone ∨ ∃ y m dd, d = Val.vdate y m dd := by
  unfold parse_dob at h
  split at h
  · injection h with h2
    exact Or.inl h2.symm
  · exact parseDobCore_ok_shape _ _ h

theorem dropSeen_eq_self (t : List Row) (seen : List Val)
    (hn : (t.map Row.app_id).Nodup) (hs : ∀ a ∈ t.map Row.app_id, a ∉ seen) :
    dropSeen t seen = t := by
  induction t generalizing seen with
  | nil => rfl
  | cons r rs ih =>
    unfold dropSeen
    rw [if_neg (hs r.app_id (by simp))]
    rw [List.map_cons, List.nodup_cons] at hn
    congr 1
    refine ih (r.app_id :: seen) hn.2 ?_
    intro a ha hmem
    rcases List.mem_cons.mp hmem with h1 | h1
    · subst h1
      exact hn.1 ha
    · exact hs a (List.mem_cons_of_mem _ ha) h1

theorem remove_duplicates_eq_self (t : List Row)
    (hm : ∀ r ∈ t, markerNotes r.notes = false) (hn : (t.map Row.app_id).Nodup) :
    remove_duplicates t = t := by
  unfold remove_duplicates
  have hf : t.filter (fun r => !markerNotes r.notes) = t :=
    List.filter_eq_self.mpr fun r hr => by rw [hm r hr]; rfl
  rw [hf]
  exact dropSeen_eq_self t [] hn fun a _ => List.not_mem_nil a

theorem ssnPool_map (t : List Row) : ssnPool t = (t.map Row.ssn).filter presentVal := by
  unfold ssnPool
  induction t with
  | nil => rfl
  | cons r rs ih =>
    by_cases h : ssnPresent r = true
    · rw [List.filter_cons_of_pos h, List.map_cons, List.map_cons,
        List.filter_cons_of_pos (show presentVal r.ssn = true from h), ih]
    · rw [List.filter_cons_of_neg h, List.map_cons,
        List.filter_cons_of_neg (show ¬presentVal r.ssn = true from h), ih]

theorem dup_ssns_congr (t t2 : List Row) (h : t.map Row.ssn = t2.map Row.ssn) :
    dup_ssns t = dup_ssns t2 := by
  unfold dup_ssns
  rw [ssnPool_map, ssnPool_map, h]

theorem count_complete_dob (r : Row)
    (h : r.date_of_birth = Val.vnone ∨ ∃ y m d, r.date_of_birth = Val.vdate y m d) :
    count_complete { r with date_of_birth := Val.vnone } + dateBit r = count_complete r := by
  rw [count_complete_eq_specCount, count_complete_eq_specCount]
  unfold specCount core_fields dateBit
  dsimp only
  rcases h with h | ⟨y, m, d, h⟩ <;> rw [h] <;> simp [List.countP_cons] <;> omega

theorem normalize_dates_map_field (fld : Row → Val)
    (hupd : ∀ (x : Row) (d : Val),
      fld { x with date_of_birth_original := x.date_of_birth, date_of_birth := d } = fld x)
    {l l2 : List Row} (h : normalize_dates l = .ok l2) : l2.map fld = l.map fld := by
  unfold normalize_dates at h
  refine mapE_ok_map_field fld ?_ h
  intro r r2 hf
  cases hpd : parse_dob r.date_of_birth with
  | error e => rw [hpd] at hf; exact absurd hf (by simp [Except.map])
  | ok dp =>
    rw [hpd] at hf
    dsimp only [Except.map] at hf
    injection hf with h2
    rw [← h2]
    exact hupd r dp

theorem fix_invalid_values_map_field (fld : Row → Val)
    (hupd : ∀ (x : Row) (v1 v2 : Val),
      fld { x with credit_history_months := v1, savings_balance := v2 } = fld x)
    {l l2 : List Row} (h : fix_invalid_values l = .ok l2) : l2.map fld = l.map fld := by
  unfold fix_invalid_values at h
  refine mapE_ok_map_field fld ?_ h
  intro r r2 hf
  cases hb1 : ltZero r.credit_history_months with
  | error e => rw [hb1] at hf; exact absurd hf (by simp)
  | ok b1 =>
    rw [hb1] at hf
    cases hb2 : ltZero r.savings_balance with
    | error e => rw [hb2] at hf; exact absurd hf (by simp)
    | ok b2 =>
      rw [hb2] at hf
      dsimp only at hf
      injection hf with h2
      rw [← h2]
      exact hupd r _ _

/-- Every row of a successful `clean_pipeline` run satisfies `cleanedRow`,
the surviving `app_id`s are pairwise distinct, and each row's SSN flag is
the duplicate test against the output table itself. -/
theorem clean_pipeline_ok_cleaned (t0 t1 : List Row) (h : clean_pipeline t0 = .ok t1) :
    (∀ r ∈ t1, cleanedRow r) ∧ (t1.map Row.app_id).Nodup ∧
    (∀ r ∈ t1, r.ssn_duplicate_flag = Val.vbool (decide (r.ssn ∈ dup_ssns t1))) := by
  unfold clean_pipeline at h
  cases h3 : normalize_dates (standardize_gender (remove_duplicates t0)) with
  | error e => rw [h3] at h; exact absurd h (by simp)
  | ok t3 =>
    rw [h3] at h
    dsimp only at h
    cases h5 : fix_invalid_values (fix_income_types t3) with
    | error e => rw [h5] at h; exact absurd h (by simp)
    | ok t5 =>
      rw [h5] at h
      dsimp only at h
      injection h with h1
      subst h1
      have hstep : ∀ r5 ∈ t5, markerNotes r5.notes = false ∧
          gender_map r5.gender = r5.gender ∧
          (r5.date_of_birth = Val.vnone ∨ ∃ y m d, r5.date_of_birth = Val.vdate y m d) ∧
          (r5.annual_income = Val.vnone ∨ ∃ n : ℤ, r5.annual_income = Val.vnum (n : ℚ)) ∧
          ltZero r5.credit_history_months = .ok false ∧
          ltZero r5.savings_balance = .ok false := by
        intro r5 hr5
        unfold fix_invalid_values at h5
        obtain ⟨r4, hr4, hf4⟩ := mapE_ok_mem h5 r5 hr5
        cases hb1 : ltZero r4.credit_history_months with
        | error e => rw [hb1] at hf4; exact absurd hf4 (by simp)
        | ok b1 =>
          rw [hb1] at hf4
          cases hb2 : ltZero r4.savings_balance with
          | error e => rw [hb2] at hf4; exact absurd hf4 (by simp)
          | ok b2 =>
            rw [hb2] at hf4
            dsimp only at hf4
            injection hf4 with h54
            unfold fix_income_types at hr4
            obtain ⟨r3, hr3, h43⟩ := List.mem_map.mp hr4
            unfold normalize_dates at h3
            obtain ⟨r2, hr2, hf2⟩ := mapE_ok_mem h3 r3 hr3
            cases hpd : parse_dob r2.date_of_birth with
            | error e => rw [hpd] at hf2; exact absurd hf2 (by simp [Except.map])
            | ok dp =>
              rw [hpd] at hf2
              dsimp only [Except.map] at hf2
              injection hf2 with h32
              unfold standardize_gender at hr2
              obtain ⟨rr, hrr, h21⟩ := List.mem_map.mp hr2
              have hnotes : markerNotes rr.notes = false := by
                have hmemf : rr ∈ t0.filter (fun r => !markerNotes r.notes) :=
                  (dropSeen_sublist _ _).subset hrr
                have hb := (List.mem_filter.mp hmemf).2
                simpa using hb
              subst h54
              subst h43
              subst h32
              subst h21
              refine ⟨hnotes, gender_map_idem rr.gender, ?_, ?_, ?_, ?_⟩
              · exact parse_dob_ok_shape _ _ hpd
              · cases htn : toNumeric rr.annual_income with
                | none => left; dsimp only
                | some q => right; exact ⟨roundHalfEven q, by dsimp only⟩
              · cases b1 with
                | true => rfl
                | false => exact hb1
              · cases b2 with
                | true => rfl
                | false => exact hb2
      refine ⟨?_, ?_, ?_⟩
      · intro r hr
        unfold flag_ssn_duplicates at hr
        obtain ⟨r7, hr7, hre⟩ := List.mem_map.mp hr
        unfold flag_missing_fields at hr7
        obtain ⟨r6, hr6, h76⟩ := List.mem_map.mp hr7
        unfold validate_emails at hr6
        obtain ⟨r5, hr5, h65⟩ := List.mem_map.mp hr6
        obtain ⟨hm, hg, hdob, hinc, hc1, hc2⟩ := hstep r5 hr5
        subst hre
        subst h76
        subst h65
        exact ⟨hm, hg, hdob, hinc, hc1, hc2, rfl, rfl, rfl⟩
      · have e8 : (flag_ssn_duplicates (flag_missing_fields (validate_emails t5))).map Row.app_id
            = t5.map Row.app_id := by
          unfold flag_ssn_duplicates flag_missing_fields validate_emails
          rw [List.map_map, List.map_map, List.map_map]
          exact List.map_congr_left fun r _ => rfl
        have e5 : t5.map Row.app_id = (fix_income_types t3).map Row.app_id :=
          fix_invalid_values_map_field Row.app_id (fun x v1 v2 => rfl) h5
        have e4 : (fix_income_types t3).map Row.app_id = t3.map Row.app_id := by
          unfold fix_income_types
          exact map_field_of_map _ _ _ fun r => rfl
        have e3 : t3.map Row.app_id
            = (standardize_gender (remove_duplicates t0)).map Row.app_id :=
          normalize_dates_map_field Row.app_id (fun x d => rfl) h3
        have e2 : (standardize_gender (remove_duplicates t0)).map Row.app_id
            = (remove_duplicates t0).map Row.app_id := by
          unfold standardize_gender
          exact map_field_of_map _ _ _ fun r => rfl
        rw [e8, e5, e4, e3, e2]
        exact (dropSeen_nodup _ _).1
      · intro r hr
        have essn : (flag_ssn_duplicates (flag_missing_fields (validate_emails t5))).map Row.ssn
            = (flag_missing_fields (validate_emails t5)).map Row.ssn := by
          unfold flag_ssn_duplicates
          rw [List.map_map]
          exact List.map_congr_left fun x _ => rfl
        have hd : dup_ssns (flag_missing_fields (validate_emails t5))
            = dup_ssns (flag_ssn_duplicates (flag_missing_fields (validate_emails t5))) :=
          dup_ssns_congr _ _ essn.symm
        unfold flag_ssn_duplicates at hr
        obtain ⟨r7, hr7, hre⟩ := List.mem_map.mp hr
        subst hre
        dsimp only
        rw [← hd]

theorem stripAudit_map_app_id (t : List Row) :
    (stripAudit t).map Row.app_id = t.map Row.app_id := by
  unfold stripAudit
  rw [List.map_map]
  exact List.map_congr_left fun r _ => rfl

theorem count_complete_fields (x y : Row)
    (h1 : x.full_name = y.full_name) (h2 : x.email = y.email) (h3 : x.ssn = y.ssn)
    (h4 : x.ip_address = y.ip_address) (h5 : x.gender = y.gender)
    (h6 : x.date_of_birth = y.date_of_birth) (h7 : x.zip_code = y.zip_code)
    (h8 : x.annual_income = y.annual_income)
    (h9 : x.credit_history_months = y.credit_history_months)
    (h10 : x.debt_to_income = y.debt_to_income)
    (h11 : x.savings_balance = y.savings_balance)
    (h12 : x.loan_approved = y.loan_approved) :
    count_complete x = count_complete y := by
  unfold count_complete core_fields
  rw [h1, h2, h3, h4, h5, h6, h7, h8, h9, h10, h11, h12]

/-- Running the pipeline again on its own (audit-stripped) output succeeds
and produces exactly `rerunRow` of each row. -/
theorem clean_pipeline_rerun (t1 : List Row)
    (hc : ∀ r ∈ t1, cleanedRow r) (hn : (t1.map Row.app_id).Nodup) :
    clean_pipeline (stripAudit t1) = .ok (t1.map (rerunRow t1)) := by
  unfold clean_pipeline
  have h1 : remove_duplicates (stripAudit t1) = stripAudit t1 := by
    apply remove_duplicates_eq_self
    · intro r hr
      unfold stripAudit at hr
      obtain ⟨r1, hr1, hre⟩ := List.mem_map.mp hr
      rw [← hre]
      exact (hc r1 hr1).1
    · rw [stripAudit_map_app_id]
      exact hn
  rw [h1]
  have h3 : normalize_dates (standardize_gender (stripAudit t1))
      = .ok ((standardize_gender (stripAudit t1)).map fun r =>
          { r with date_of_birth_original := r.date_of_birth, date_of_birth := Val.vnone }) := by
    unfold normalize_dates
    apply mapE_eq_map
    intro r hr
    unfold standardize_gender stripAudit at hr
    rw [List.map_map] at hr
    obtain ⟨r1, hr1, hre⟩ := List.mem_map.mp hr
    obtain ⟨-, -, hdob, -⟩ := hc r1 hr1
    have hdr : r.date_of_birth = r1.date_of_birth := by rw [← hre]; rfl
    have hp : parse_dob r.date_of_birth = .ok Val.vnone := by
      rw [hdr]
      rcases hdob with hd | ⟨y, m, d, hd⟩
      · rw [hd]
        rfl
      · rw [hd]
        exact parse_dob_vdate y m d
    rw [hp]
    rfl
  rw [h3]
  dsimp only
  have h4 : fix_income_types ((standardize_gender (stripAudit t1)).map fun r =>
        { r with date_of_birth_original := r.date_of_birth, date_of_birth := Val.vnone })
      = ((standardize_gender (stripAudit t1)).map fun r =>
        { r with date_of_birth_original := r.date_of_birth, date_of_birth := Val.vnone }) := by
    unfold fix_income_types
    refine Eq.trans (List.map_congr_left ?_) (List.map_id _)
    intro x hx
    dsimp only [id]
    obtain ⟨x3, hx3, hxe⟩ := List.mem_map.mp hx
    unfold standardize_gender stripAudit at hx3
    rw [List.map_map] at hx3
    obtain ⟨r1, hr1, hre⟩ := List.mem_map.mp hx3
    obtain ⟨-, -, -, hinc, -⟩ := hc r1 hr1
    have hxi : x.annual_income = r1.annual_income := by rw [← hxe, ← hre]; rfl
    rcases hinc with hi | ⟨n, hi⟩
    · have hix : x.annual_income = Val.vnone := hxi.trans hi
      rw [hix]
      dsimp only [toNumeric]
      rw [← hix]
    · have hix : x.annual_income = Val.vnum ((n : ℤ) : ℚ) := hxi.trans hi
      rw [hix]
      dsimp only [toNumeric]
      rw [roundHalfEven_int n, ← hix]
  rw [h4]
  have h5 : fix_invalid_values ((standardize_gender (stripAudit t1)).map fun r =>
        { r with date_of_birth_original := r.date_of_birth, date_of_birth := Val.vnone })
      = .ok ((standardize_gender (stripAudit t1)).map fun r =>
        { r with date_of_birth_original := r.date_of_birth, date_of_birth := Val.vnone }) := by
    unfold fix_invalid_values
    refine Eq.trans (mapE_eq_map _ id _ ?_) (by rw [List.map_id])
    intro x hx
    dsimp only [id]
    obtain ⟨x3, hx3, hxe⟩ := List.mem_map.mp hx
    unfold standardize_gender stripAudit at hx3
    rw [List.map_map] at hx3
    obtain ⟨r1, hr1, hre⟩ := List.mem_map.mp hx3
    obtain ⟨-, -, -, -, hcc, hcs, -⟩ := hc r1 hr1
    have hxc : ltZero x.credit_history_months = .ok false := by
      rw [show x.credit_history_months = r1.credit_history_months by rw [← hxe, ← hre]; rfl]
      exact hcc
    have hxs : ltZero x.savings_balance = .ok false := by
      rw [show x.savings_balance = r1.savings_balance by rw [← hxe, ← hre]; rfl]
      exact hcs
    rw [hxc, hxs]
    rfl
  rw [h5]
  dsimp only
  congr 1
  have hU : dup_ssns (flag_missing_fields (validate_emails
        ((standardize_gender (stripAudit t1)).map fun r =>
          { r with date_of_birth_original := r.date_of_birth, date_of_birth := Val.vnone })))
      = dup_ssns t1 := by
    apply dup_ssns_congr
    unfold flag_missing_fields validate_emails standardize_gender stripAudit
    rw [List.map_map, List.map_map, List.map_map, List.map_map, List.map_map]
    exact List.map_congr_left fun r _ => rfl
  unfold flag_ssn_duplicates
  rw [hU]
  unfold flag_missing_fields validate_emails standardize_gender stripAudit
  rw [List.map_map, List.map_map, List.map_map, List.map_map, List.map_map]
  refine List.map_congr_left ?_
  intro r1 hr1
  obtain ⟨hm1, hg, hdob, hinc, hcc, hcs, hev, hsc, hpc⟩ := hc r1 hr1
  have hstep : count_complete ({ r1 with date_of_birth := Val.vnone }) = count_complete r1 - dateBit r1 := by
    have h2 := count_complete_dob r1 hdob
    omega
  dsimp only [Function.comp, rerunRow]
  simp only [Row.mk.injEq, true_and, and_true]
  have hint : (↑(count_complete ({ r1 with date_of_birth := Val.vnone })) : ℤ)
      = ↑(count_complete r1) - ↑(dateBit r1) := by
    have h2 := count_complete_dob r1 hdob
    omega
  refine ⟨hg, ?_, ?_⟩
  · refine congrArg Val.vnum (congrArg (fun z : ℤ => mkRat z 1)
      ((congrArg Nat.cast (count_complete_fields _ ({ r1 with date_of_birth := Val.vnone })
        ?_ ?_ ?_ ?_ ?_ ?_ ?_ ?_ ?_ ?_ ?_ ?_)).trans hint)) <;> first | exact hg | rfl
  · refine congrArg Val.vnum (congrArg pct_formula
      ((count_complete_fields _ ({ r1 with date_of_birth := Val.vnone })
        ?_ ?_ ?_ ?_ ?_ ?_ ?_ ?_ ?_ ?_ ?_ ?_).trans hstep)) <;> first | exact hg | rfl

/-- C4: corrected. A second `clean_pipeline` run on the audit-stripped output
of a first run always succeeds, removes no rows, and reproduces `email_valid`
and `ssn_duplicate_flag` exactly; but the completeness columns are only
reproduced for rows whose date of birth did not parse: a parsed date is
stringified with a `" 00:00:00"` suffix between runs, fails the strict
re-parse, and the completeness score drops by the date's contribution
(`dateBit`), so the pipeline is not idempotent on the completeness columns. -/
theorem C4_pipeline_second_run (t0 t1 : List Row)
    (h : clean_pipeline t0 = .ok t1) :
    clean_pipeline (stripAudit t1) = .ok (t1.map (rerunRow t1)) ∧
    (t1.map (rerunRow t1)).length = t1.length ∧
    (∀ r ∈ t1, (rerunRow t1 r).email_valid = r.email_valid) ∧
    (∀ r ∈ t1, (rerunRow t1 r).ssn_duplicate_flag = r.ssn_duplicate_flag) ∧
    (∀ r ∈ t1, r.completeness_score = Val.vnum (mkRat (count_complete r) 1) ∧
      (rerunRow t1 r).completeness_score
        = Val.vnum (mkRat ((count_complete r : ℤ) - (dateBit r : ℤ)) 1)) ∧
    (∀ r ∈ t1, dateBit r = 0 →
      (rerunRow t1 r).completeness_score = r.completeness_score ∧
      (rerunRow t1 r).completeness_pct = r.completeness_pct) := by
  obtain ⟨hc, hn, hssn⟩ := clean_pipeline_ok_cleaned t0 t1 h
  refine ⟨clean_pipeline_rerun t1 hc hn, List.length_map _ _, ?_, ?_, ?_, ?_⟩
  · intro r hr
    exact ((hc r hr).2.2.2.2.2.2.1).symm
  · intro r hr
    exact (hssn r hr).symm
  · intro r hr
    exact ⟨(hc r hr).2.2.2.2.2.2.2.1, rfl⟩
  · intro r hr hb
    constructor
    · show Val.vnum (mkRat ((count_complete r : ℤ) - (dateBit r : ℤ)) 1)
        = r.completeness_score
      rw [hb, Nat.cast_zero, sub_zero, (hc r hr).2.2.2.2.2.2.2.1]
    · show Val.vnum (pct_formula (count_complete r - dateBit r)) = r.completeness_pct
      rw [hb, Nat.sub_zero, (hc r hr).2.2.2.2.2.2.2.2]

/-- Witness for C4: the single fully-populated row `c4row` cleans to
`c4out`, and the second run on the stripped output succeeds and equals the
`rerunRow` description. -/
theorem C4_pipeline_second_run_witness :
    clean_pipeline [c4row] = .ok [c4out] ∧
    clean_pipeline (stripAudit [c4out]) = .ok ([c4out].map (rerunRow [c4out])) :=
  ⟨by decide, (C4_pipeline_second_run [c4row] [c4out] (by decide)).1⟩

/-- Counterexample for C4 as stated: on `c4row` the first run scores
completeness 12 (100%), the second run on the stripped output scores 11
(91.7%) because the parsed date no longer re-parses — the completeness
columns differ between runs, while row count, `email_valid` and
`ssn_duplicate_flag` are reproduced exactly. -/
theorem C4_counterexample :
    (clean_pipeline [c4row]).map (List.map Row.completeness_score)
      = .ok [Val.vnum (mkRat 12 1)] ∧
    (clean_twice [c4row]).map (List.map Row.completeness_score)
      = .ok [Val.vnum (mkRat 11 1)] ∧
    (clean_twice [c4row]).map (List.map Row.completeness_score)
      ≠ (clean_pipeline [c4row]).map (List.map Row.completeness_score) ∧
    (clean_twice [c4row]).map (List.map Row.completeness_pct)
      = .ok [Val.vnum (mkRat 917 10)] ∧
    (clean_twice [c4row]).map List.length
      = (clean_pipeline [c4row]).map List.length ∧
    (clean_twice [c4row]).map (List.map Row.email_valid)
      = (clean_pipeline [c4row]).map (List.map Row.email_valid) ∧
    (clean_twice [c4row]).map (List.map Row.ssn_duplicate_flag)
      = (clean_pipeline [c4row]).map (List.map Row.ssn_duplicate_flag) := by
  have h1 : clean_pipeline [c4row] = .ok [c4out] := by decide
  obtain ⟨hc, hn, hssn⟩ := clean_pipeline_ok_cleaned [c4row] [c4out] h1
  have h2 : clean_twice [c4row] = .ok [rerunRow [c4out] c4out] := by
    unfold clean_twice
    rw [h1]
    exact clean_pipeline_rerun [c4out] hc hn
  rw [h1, h2]
  decide
